import Mathlib

/-!
Verification development for the TrendArbitrage opportunity analysis engine.

The frontend component (`src/frontend/app/page.tsx`) is embedded directly
from its TypeScript source: the keyword-list handlers, the API call guard,
the displayed ranking and the chart-data computation.  The engine core
(time-series statistics, opportunity scorer and fetch orchestrator) is a
Python backend that is not part of the sources; those parts are modelled
from the specification and are marked as such in their doc comments.
Real-number arithmetic of the scorer is embedded over `ℝ`; the exact
statistics over the interest series are embedded over `ℚ`.
-/

namespace TrendArbitrage

/-! ### Frontend data model, from `src/frontend/app/page.tsx` -/

/-- One point of the Google-Trends history attached to a result
(`interface HistoryPoint` in page.tsx): a date string and an interest
value.  Interest values are numbers, embedded as rationals. -/
structure HistoryPoint where
  date : String
  value : ℚ
  deriving DecidableEq

/-- One record returned by the backend for one keyword
(`interface AnalysisResult` in page.tsx).  Numeric scores are embedded as
rationals, listing counts as naturals. -/
structure AnalysisResult where
  keyword : String
  interest_score : ℚ
  total_supply : ℕ
  opportunity_score : ℚ
  amazon_count : ℕ
  ebay_count : ℕ
  recommendation : String
  history : List HistoryPoint
  deriving DecidableEq

/-! ### Keyword handling (page.tsx lines 237-247) -/

/-- Embedding of JavaScript `String.prototype.trim` on the character list of
a string: leading and trailing whitespace characters are removed. -/
def trimChars (l : List Char) : List Char :=
  ((l.dropWhile Char.isWhitespace).reverse.dropWhile Char.isWhitespace).reverse

/-- Embedding of `inputVal.trim()` on Lean strings. -/
def jsTrim (s : String) : String :=
  ⟨trimChars s.data⟩

/-- Embedding of `addKeyword` (page.tsx lines 237-243): trim the input; if
the trimmed string is non-empty (JavaScript truthiness of a string), fewer
than 10 keywords are present and the trimmed string is not already an
element (exact `Array.includes` equality), append it; otherwise leave the
list unchanged. -/
def addKeyword (inputVal : String) (keywords : List String) : List String :=
  if jsTrim inputVal ≠ "" ∧ keywords.length < 10 ∧ jsTrim inputVal ∉ keywords then
    keywords ++ [jsTrim inputVal]
  else
    keywords

/-- Embedding of `removeKeyword` (page.tsx lines 245-247): keep every
keyword different from the removed one. -/
def removeKeyword (kw : String) (keywords : List String) : List String :=
  keywords.filter (fun k => k != kw)

/-- State invariant of the `HomePage` keyword list: at most 10 entries,
every entry a non-empty string fixed by trimming, and no exact duplicates. -/
def KeywordInv (l : List String) : Prop :=
  l.length ≤ 10 ∧ (∀ s ∈ l, s ≠ "" ∧ jsTrim s = s) ∧ l.Nodup

/-- Spec-side definition, for comparing the code's deduplication with the
specification's: the spec asks for keywords that are "case-insensitive for
dedup", i.e. compared after case-folding every character to lower case. -/
def specCaseFold (s : String) : String :=
  ⟨s.data.map Char.toLower⟩

/-! ### Ranking of displayed results (page.tsx line 133) -/

/-- Stable insertion of a result into a list already sorted by
non-increasing `opportunity_score`: the new element goes before the first
element whose score is not larger, so elements with equal scores keep their
input order. -/
def insertDesc (x : AnalysisResult) : List AnalysisResult → List AnalysisResult
  | [] => [x]
  | y :: tl =>
    if y.opportunity_score ≤ x.opportunity_score then x :: y :: tl
    else y :: insertDesc x tl

/-- Embedding of the ranking applied to the displayed results,
`results.sort((a, b) => b.opportunity_score - a.opportunity_score)`
(page.tsx line 133).  JavaScript `Array.prototype.sort` is stable, and a
stable sort for a fixed comparator has a unique output, so this stable
insertion sort by descending score is an exact model. -/
def rankResults : List AnalysisResult → List AnalysisResult
  | [] => []
  | a :: l => insertDesc a (rankResults l)

/-- The ordering property the specification claims for a ranked batch:
strictly larger scores first, and results with equal scores in ascending
lexicographic keyword order. -/
def tieBreakOrdered (l : List AnalysisResult) : Prop :=
  l.Pairwise (fun a b =>
    b.opportunity_score < a.opportunity_score ∨
      (a.opportunity_score = b.opportunity_score ∧ a.keyword ≤ b.keyword))

/-! ### API call and chart data (page.tsx lines 254-306) -/

/-- Embedding of `fetchAnalysis` (page.tsx lines 254-272) as a transformer
of the `results` state.  With no keywords the function returns immediately
and the previous results stand.  Otherwise the results are reset and the
backend response becomes the new state; a failed call is caught (the catch
branch only shows an alert), leaving the reset (empty) results. -/
def fetchAnalysis (keywords : List String)
    (backend : List String → Except String (List AnalysisResult))
    (prevResults : List AnalysisResult) : List AnalysisResult :=
  if keywords.isEmpty then prevResults
  else
    match backend keywords with
    | .ok data => data
    | .error _ => []

/-- The filter applied to a history point in the `chartData` memo
(page.tsx lines 295-301): a point whose date string does not parse is
excluded, otherwise the point is kept exactly when its date is not before
the cutoff.  The date parser stands for JavaScript `new Date` (with `none`
for an invalid date) and is passed in, as is the cutoff timestamp computed
from the selected time range. -/
def dateFilter (parseDate : String → Option ℤ) (cutoff : ℤ)
    (point : HistoryPoint) : Bool :=
  match parseDate point.date with
  | none => false
  | some d => decide (cutoff ≤ d)

/-- Embedding of the `chartData` memo (page.tsx lines 275-306): empty when
no product is selected or there are no results; otherwise the selected
product is looked up, an empty (or missing) history gives the empty list,
and the history is filtered by date; when the filter removes every point
the last five points of the full history are shown instead. -/
def chartData (selectedProduct : Option String) (results : List AnalysisResult)
    (parseDate : String → Option ℤ) (cutoff : ℤ) : List HistoryPoint :=
  match selectedProduct with
  | none => []
  | some k =>
    if results.isEmpty then []
    else
      match results.find? (fun r => r.keyword == k) with
      | none => []
      | some productData =>
        if productData.history.isEmpty then []
        else
          if (productData.history.filter (dateFilter parseDate cutoff)).isEmpty then
            productData.history.drop (productData.history.length - 5)
          else
            productData.history.filter (dateFilter parseDate cutoff)

/-! ### Engine core, modelled from the specification

The Python engine (time-series statistics, opportunity scorer, fetch
orchestrator) is not among the sources; only its documentation and its
frontend consumer are.  The definitions below are therefore modelled from
the specification (sections 4.1-4.3). -/

/-- Modelled from the spec: the derived demand statistics (section 3 and
section 4.1; the missing Python trend detector computes them).  The
velocity field is used by no claim and is omitted. -/
structure DemandStats where
  meanInterest : ℚ
  momentum : ℚ
  insufficientData : Bool
  deriving DecidableEq

/-- Modelled from the spec: arithmetic mean of a window of interest values,
`0` for an empty window (section 4.1 degrades missing data to zero). -/
def avg (l : List ℚ) : ℚ :=
  if l = [] then 0 else l.sum / l.length

/-- Modelled from the spec: size of the early and late momentum windows,
25% of the points by position with a minimum of one point (section 4.1). -/
def windowLen (ts : List ℚ) : ℕ :=
  max 1 (ts.length / 4)

/-- Modelled from the spec: average over the first 25% of points. -/
def earlyAvg (ts : List ℚ) : ℚ :=
  avg (ts.take (windowLen ts))

/-- Modelled from the spec: average over the last 25% of points. -/
def recentAvg (ts : List ℚ) : ℚ :=
  avg (ts.drop (ts.length - windowLen ts))

/-- Modelled from the spec: growth momentum,
`max 0 ((recentAvg - earlyAvg) / earlyAvg)`, defined as `0` when
`earlyAvg = 0` instead of dividing by zero (section 4.1). -/
def momentum (ts : List ℚ) : ℚ :=
  if ts = [] then 0
  else if earlyAvg ts = 0 then 0
  else max 0 ((recentAvg ts - earlyAvg ts) / earlyAvg ts)

/-- Modelled from the spec: arithmetic mean of all point values, `0` for an
empty series (section 4.1). -/
def meanInterest (ts : List ℚ) : ℚ :=
  if ts = [] then 0 else ts.sum / ts.length

/-- Modelled from the spec: the statistics derived from a (possibly empty)
interest series; the empty series is flagged `insufficientData`
(section 4.1).  A series is embedded as its list of interest values; the
statistics never look at the dates. -/
def computeStats (ts : List ℚ) : DemandStats :=
  ⟨meanInterest ts, momentum ts, ts.isEmpty⟩

/-- Modelled from the spec: the scoring configuration injected by callers
(section 4.2, steps 2 and 5): the baseline search volume and the score
normalizer. -/
structure ScoringConfig where
  baseline : ℝ
  normalizer : ℝ

/-- Modelled from the spec: `supplyPressure = log10(totalSupply + 10)`
(section 4.2, step 1). -/
noncomputable def supplyPressure (totalSupply : ℝ) : ℝ :=
  Real.logb 10 (totalSupply + 10)

/-- Modelled from the spec: the saturation penalty subtracted before
clamping, 15 points above 20,000 listings and 10 points above 10,000
(section 4.2, step 5). -/
noncomputable def saturationPenalty (totalSupply : ℝ) : ℝ :=
  if 20000 < totalSupply then 15
  else if 10000 < totalSupply then 10
  else 0

/-- Modelled from the spec: `monthlySearches = (meanInterest/100) * BASELINE`
(section 4.2, step 2). -/
noncomputable def monthlySearches (cfg : ScoringConfig) (meanI : ℝ) : ℝ :=
  meanI / 100 * cfg.baseline

/-- Modelled from the spec: `viability = demandSignal * (1 + momentum)`
(section 4.2, step 3). -/
noncomputable def viability (cfg : ScoringConfig) (meanI mom : ℝ) : ℝ :=
  monthlySearches cfg meanI * (1 + mom)

/-- Modelled from the spec: `baseScore = viability / supplyPressure`
(section 4.2, step 4). -/
noncomputable def baseScore (cfg : ScoringConfig) (meanI mom totalSupply : ℝ) : ℝ :=
  viability cfg meanI mom / supplyPressure totalSupply

/-- Clamping of a value into a closed interval. -/
noncomputable def clamp (x lo hi : ℝ) : ℝ :=
  max lo (min hi x)

/-- Modelled from the spec:
`finalScore = clamp(baseScore / NORMALIZER - saturationPenalty, 0, 100)`
(section 4.2, step 5). -/
noncomputable def finalScore (cfg : ScoringConfig) (meanI mom totalSupply : ℝ) : ℝ :=
  clamp (baseScore cfg meanI mom totalSupply / cfg.normalizer
    - saturationPenalty totalSupply) 0 100

/-- Modelled from the spec: the verdict band for a score (section 4.2,
step 7). -/
noncomputable def verdictText (x : ℝ) : String :=
  if 70 ≤ x then "StrongBuy"
  else if 50 ≤ x then "Consider"
  else if 30 ≤ x then "Risky"
  else "Avoid"

/-- Modelled from the spec: the opportunity scorer, a pure function of the
demand statistics and the total supply (section 4.2).  Statistics flagged
`insufficientData` force a zero score and the "insufficient data" verdict. -/
noncomputable def score (cfg : ScoringConfig) (st : DemandStats)
    (totalSupply : ℝ) : ℝ × String :=
  if st.insufficientData then (0, "insufficient data")
  else
    (finalScore cfg (st.meanInterest : ℝ) (st.momentum : ℝ) totalSupply,
     verdictText (finalScore cfg (st.meanInterest : ℝ) (st.momentum : ℝ) totalSupply))

/-- Modelled from the spec: one record of the engine's output batch
(section 3, `OpportunityResult`; only the fields the claims mention). -/
structure RunResult where
  keyword : String
  stats : DemandStats
  totalSupply : ℕ
  score : ℝ
  verdict : String

/-- Modelled from the spec: the per-keyword result assembly of the fetch
orchestrator (section 4.3).  Sources are abstract functions and `none` is a
permanent failure: a failed demand source degrades to the empty series (the
`insufficientData` path) and a failed supply source is excluded from the
total.  Retry, backoff, concurrency and cancellation are real-time
behaviour and are not embedded; every keyword is mapped to exactly the
result its settled fetches produce. -/
noncomputable def runEngine (keywords : List String)
    (demand : String → Option (List ℚ)) (supplies : List (String → Option ℕ))
    (cfg : ScoringConfig) : List RunResult :=
  keywords.map fun k =>
    let ts := (demand k).getD []
    let st := computeStats ts
    let total : ℕ := (supplies.filterMap fun src => src k).sum
    ⟨k, st, total, (score cfg st (total : ℝ)).1, (score cfg st (total : ℝ)).2⟩

/-! ### Trimming lemmas -/

/-- Dropping a matched run never lengthens a list. -/
theorem length_dropWhile_le {α : Type} (p : α → Bool) (l : List α) :
    (l.dropWhile p).length ≤ l.length := by
  induction l with
  | nil => simp
  | cons a t ih =>
    rw [List.dropWhile_cons]
    by_cases h : p a
    · simp only [h, if_true]
      exact le_trans ih (Nat.le_succ _)
    · simp [h]

/-- `dropWhile` is idempotent. -/
theorem dropWhile_dropWhile {α : Type} (p : α → Bool) (l : List α) :
    (l.dropWhile p).dropWhile p = l.dropWhile p := by
  induction l with
  | nil => rfl
  | cons a t ih =>
    by_cases h : p a
    · simp [List.dropWhile_cons, h, ih]
    · simp [List.dropWhile_cons, h]

/-- A list fixed by `dropWhile` stays fixed when a tail is cut off. -/
theorem dropWhile_eq_self_of_append {α : Type} {p : α → Bool} {m t : List α}
    (h : (m ++ t).dropWhile p = m ++ t) : m.dropWhile p = m := by
  cases m with
  | nil => rfl
  | cons a m' =>
    rw [List.cons_append, List.dropWhile_cons] at h
    by_cases ha : p a
    · rw [if_pos ha] at h
      have h2 := length_dropWhile_le p (m' ++ t)
      rw [h] at h2
      simp only [List.length_cons] at h2
      exact absurd h2 (by omega)
    · rw [List.dropWhile_cons, if_neg ha]

/-- Trimming a character list is idempotent. -/
theorem trimChars_idem (l : List Char) : trimChars (trimChars l) = trimChars l := by
  have key : ∀ m : List Char, m.dropWhile Char.isWhitespace = m →
      trimChars m = (m.reverse.dropWhile Char.isWhitespace).reverse := by
    intro m hm
    unfold trimChars
    rw [hm]
  have hl1 : trimChars l =
      ((l.dropWhile Char.isWhitespace).reverse.dropWhile Char.isWhitespace).reverse := rfl
  have hfront : (trimChars l).dropWhile Char.isWhitespace = trimChars l := by
    have hsplit := List.takeWhile_append_dropWhile Char.isWhitespace
      (l.dropWhile Char.isWhitespace).reverse
    have hL : trimChars l ++
        ((l.dropWhile Char.isWhitespace).reverse.takeWhile Char.isWhitespace).reverse
        = l.dropWhile Char.isWhitespace := by
      rw [hl1]
      have h3 := congrArg List.reverse hsplit
      rw [List.reverse_append] at h3
      simpa using h3
    have hfix := dropWhile_dropWhile Char.isWhitespace l
    rw [← hL] at hfix
    exact dropWhile_eq_self_of_append hfix
  rw [key _ hfront, hl1, List.reverse_reverse, dropWhile_dropWhile]

/-- JavaScript string trimming is idempotent. -/
theorem jsTrim_idem (s : String) : jsTrim (jsTrim s) = jsTrim s :=
  congrArg String.mk (trimChars_idem s.data)

/-! ### C9: the keyword-list invariant -/

/-- C9. After every `addKeyword` and `removeKeyword` the keyword list keeps
its invariant: at most 10 entries, each a non-empty trimmed string, pairwise
distinct under exact string equality.  `addKeyword` on a full list, on input
that trims to the empty string, or on input whose trimmed form is already
present leaves the list unchanged. -/
theorem keywordInv_preserved (inputVal kw : String) (keywords : List String)
    (h : KeywordInv keywords) :
    KeywordInv (addKeyword inputVal keywords) ∧
    KeywordInv (removeKeyword kw keywords) ∧
    (10 ≤ keywords.length → addKeyword inputVal keywords = keywords) ∧
    (jsTrim inputVal = "" → addKeyword inputVal keywords = keywords) ∧
    (jsTrim inputVal ∈ keywords → addKeyword inputVal keywords = keywords) := by
  obtain ⟨hlen, hmem, hnd⟩ := h
  refine ⟨?_, ?_, ?_, ?_, ?_⟩
  · by_cases hc : jsTrim inputVal ≠ "" ∧ keywords.length < 10 ∧
        jsTrim inputVal ∉ keywords
    · rw [addKeyword, if_pos hc]
      refine ⟨?_, ?_, ?_⟩
      · rw [List.length_append, List.length_singleton]
        omega
      · intro s hs
        rcases List.mem_append.mp hs with hs | hs
        · exact hmem s hs
        · rw [List.mem_singleton] at hs
          subst hs
          exact ⟨hc.1, jsTrim_idem _⟩
      · rw [List.nodup_append]
        refine ⟨hnd, List.nodup_singleton _, ?_⟩
        intro x hx hx1
        rw [List.mem_singleton] at hx1
        subst hx1
        exact hc.2.2 hx
    · rw [addKeyword, if_neg hc]
      exact ⟨hlen, hmem, hnd⟩
  · refine ⟨le_trans (List.length_filter_le _ _) hlen, ?_, hnd.filter _⟩
    intro s hs
    exact hmem s (List.mem_filter.mp hs).1
  · intro hfull
    rw [addKeyword, if_neg]
    rintro ⟨-, h2, -⟩
    omega
  · intro hempty
    rw [addKeyword, if_neg]
    rintro ⟨h1, -, -⟩
    exact h1 hempty
  · intro hdup
    rw [addKeyword, if_neg]
    rintro ⟨-, -, h3⟩
    exact h3 hdup

/-- C9 witness: the invariant holds for a concrete list and is preserved by
a concrete add and remove. -/
theorem keywordInv_preserved_witness :
    KeywordInv ["yoga mat"] ∧
    (KeywordInv (addKeyword " cat toy " ["yoga mat"]) ∧
     KeywordInv (removeKeyword "yoga mat" ["yoga mat"]) ∧
     (10 ≤ ["yoga mat"].length → addKeyword " cat toy " ["yoga mat"] = ["yoga mat"]) ∧
     (jsTrim " cat toy " = "" → addKeyword " cat toy " ["yoga mat"] = ["yoga mat"]) ∧
     (jsTrim " cat toy " ∈ ["yoga mat"] → addKeyword " cat toy " ["yoga mat"] = ["yoga mat"])) :=
  ⟨⟨by decide, by decide, by decide⟩,
   keywordInv_preserved " cat toy " "yoga mat" ["yoga mat"]
     ⟨by decide, by decide, by decide⟩⟩

/-! ### C4: deduplication of keywords -/

/-- C4 counterexample: deduplication in `addKeyword` is exact and
case-sensitive, not case-insensitive.  Adding `"yoga"` to a list already
holding `"Yoga"` yields two entries that are equal after trimming and
case-folding, instead of collapsing them to one. -/
theorem addKeyword_casefold_cex :
    addKeyword "yoga" ["Yoga"] = ["Yoga", "yoga"] ∧
    specCaseFold (jsTrim "yoga") = specCaseFold (jsTrim "Yoga") ∧
    "yoga" ≠ "Yoga" := by
  refine ⟨?_, by decide, by decide⟩
  rw [addKeyword, if_pos]
  · rfl
  · exact ⟨by decide, by decide, by decide⟩

/-- C4 amended: keywords are deduplicated after trimming under exact,
case-sensitive string equality.  An input whose trimmed form is already
present leaves the batch unchanged; exact duplicates never appear; when the
input is genuinely new (and the list has room) the trimmed input is
appended with its original case preserved. -/
theorem addKeyword_dedup_exact (inputVal : String) (keywords : List String) :
    (jsTrim inputVal ∈ keywords → addKeyword inputVal keywords = keywords) ∧
    (keywords.Nodup → (addKeyword inputVal keywords).Nodup) ∧
    (jsTrim inputVal ≠ "" → keywords.length < 10 → jsTrim inputVal ∉ keywords →
      addKeyword inputVal keywords = keywords ++ [jsTrim inputVal]) := by
  refine ⟨?_, ?_, ?_⟩
  · intro hdup
    rw [addKeyword, if_neg]
    rintro ⟨-, -, h3⟩
    exact h3 hdup
  · intro hnd
    by_cases hc : jsTrim inputVal ≠ "" ∧ keywords.length < 10 ∧
        jsTrim inputVal ∉ keywords
    · rw [addKeyword, if_pos hc, List.nodup_append]
      refine ⟨hnd, List.nodup_singleton _, ?_⟩
      intro x hx hx1
      rw [List.mem_singleton] at hx1
      subst hx1
      exact hc.2.2 hx
    · rw [addKeyword, if_neg hc]
      exact hnd
  · intro h1 h2 h3
    rw [addKeyword, if_pos ⟨h1, h2, h3⟩]

/-- C4 amended witness: concrete instances of the three parts. -/
theorem addKeyword_dedup_exact_witness :
    jsTrim " yoga " ∈ ["yoga"] ∧ addKeyword " yoga " ["yoga"] = ["yoga"] ∧
    ["Yoga"].Nodup ∧ (addKeyword "yoga" ["Yoga"]).Nodup ∧
    (jsTrim " Cat Toy " ≠ "" ∧ ["yoga"].length < 10 ∧ jsTrim " Cat Toy " ∉ ["yoga"]) ∧
    addKeyword " Cat Toy " ["yoga"] = ["yoga"] ++ [jsTrim " Cat Toy "] :=
  ⟨by decide, (addKeyword_dedup_exact " yoga " ["yoga"]).1 (by decide),
   by decide, (addKeyword_dedup_exact "yoga" ["Yoga"]).2.1 (by decide),
   ⟨by decide, by decide, by decide⟩,
   (addKeyword_dedup_exact " Cat Toy " ["yoga"]).2.2 (by decide) (by decide) (by decide)⟩

/-! ### C3: ranking -/

/-- Membership in a stable insertion. -/
theorem mem_insertDesc {x y : AnalysisResult} {l : List AnalysisResult} :
    y ∈ insertDesc x l ↔ y = x ∨ y ∈ l := by
  induction l with
  | nil => simp [insertDesc]
  | cons z tl ih =>
    by_cases hz : z.opportunity_score ≤ x.opportunity_score
    · simp [insertDesc, hz]
    · simp [insertDesc, hz, ih]
      tauto

/-- Stable insertion preserves the non-increasing-score ordering. -/
theorem pairwise_insertDesc {x : AnalysisResult} {l : List AnalysisResult}
    (h : l.Pairwise (fun a b => b.opportunity_score ≤ a.opportunity_score)) :
    (insertDesc x l).Pairwise
      (fun a b => b.opportunity_score ≤ a.opportunity_score) := by
  induction l with
  | nil => simp [insertDesc]
  | cons y tl ih =>
    rw [List.pairwise_cons] at h
    by_cases hy : y.opportunity_score ≤ x.opportunity_score
    · rw [insertDesc, if_pos hy, List.pairwise_cons]
      refine ⟨?_, List.pairwise_cons.mpr h⟩
      intro z hz
      rcases List.mem_cons.mp hz with hz | hz
      · subst hz; exact hy
      · exact le_trans (h.1 z hz) hy
    · rw [insertDesc, if_neg hy, List.pairwise_cons]
      refine ⟨?_, ih h.2⟩
      intro z hz
      rcases mem_insertDesc.mp hz with hz | hz
      · subst hz; exact le_of_not_le hy
      · exact h.1 z hz

/-- Stable insertion is a permutation of consing. -/
theorem perm_insertDesc (x : AnalysisResult) (l : List AnalysisResult) :
    (insertDesc x l).Perm (x :: l) := by
  induction l with
  | nil => rfl
  | cons y tl ih =>
    by_cases hy : y.opportunity_score ≤ x.opportunity_score
    · rw [insertDesc, if_pos hy]
    · rw [insertDesc, if_neg hy]
      exact (ih.cons y).trans (List.Perm.swap x y tl)

/-- Stable insertion keeps, for each score value, the elements carrying
that score in their input order. -/
theorem filter_insertDesc (x : AnalysisResult) (l : List AnalysisResult) (s : ℚ) :
    (insertDesc x l).filter (fun r => r.opportunity_score == s) =
      if x.opportunity_score == s
      then x :: l.filter (fun r => r.opportunity_score == s)
      else l.filter (fun r => r.opportunity_score == s) := by
  induction l with
  | nil => simp [insertDesc, List.filter_cons]
  | cons y tl ih =>
    by_cases hy : y.opportunity_score ≤ x.opportunity_score
    · rw [insertDesc, if_pos hy]
      by_cases hx : x.opportunity_score = s
      · simp [List.filter_cons, hx]
      · simp [List.filter_cons, hx]
    · rw [insertDesc, if_neg hy]
      by_cases hx : x.opportunity_score = s
      · have hyne : ¬ y.opportunity_score = s := by
          intro hys
          exact hy (le_of_eq (hys.trans hx.symm))
        simp [List.filter_cons, hx, hyne, ih]
      · by_cases hys : y.opportunity_score = s
        · simp [List.filter_cons, hx, hys, ih]
        · simp [List.filter_cons, hx, hys, ih]

/-- Concrete result used by the ranking counterexample: keyword "b",
opportunity score 5. -/
def cexResB : AnalysisResult := ⟨"b", 0, 0, 5, 0, 0, "", []⟩

/-- Concrete result used by the ranking counterexample: keyword "a",
opportunity score 5. -/
def cexResA : AnalysisResult := ⟨"a", 0, 0, 5, 0, 0, "", []⟩

/-- C3 counterexample: the displayed ranking sorts only by descending score;
two results with equal scores keep their input order, so a batch entered as
`["b", "a"]` (equal scores) is not returned with its keywords ascending. -/
theorem rank_tiebreak_cex :
    rankResults [cexResB, cexResA] = [cexResB, cexResA] ∧
    cexResA.keyword < cexResB.keyword ∧
    cexResB.opportunity_score = cexResA.opportunity_score ∧
    ¬ tieBreakOrdered (rankResults [cexResB, cexResA]) := by
  have hlt : cexResA.keyword < cexResB.keyword := by
    show ("a" : String) < "b"
    rw [String.lt_iff_toList_lt]
    decide
  have hnle : ¬ cexResB.keyword ≤ cexResA.keyword := by
    show ¬ ("b" : String) ≤ "a"
    rw [String.le_iff_toList_le]
    decide
  refine ⟨by decide, hlt, by decide, ?_⟩
  intro hord
  rw [show rankResults [cexResB, cexResA] = [cexResB, cexResA] from by decide] at hord
  rw [tieBreakOrdered, List.pairwise_cons] at hord
  have h := hord.1 _ (List.mem_singleton.mpr rfl)
  rcases h with h | h
  · exact absurd h (by decide)
  · exact absurd h.2 hnle

/-- C3 amended: the ranking applied to the displayed results sorts them by
non-increasing `opportunity_score` and is a stable, deterministic
permutation of the input — for every score value, the results carrying that
score appear in their input order, not reordered by keyword. -/
theorem rankResults_sorted_stable (l : List AnalysisResult) :
    (rankResults l).Pairwise
      (fun a b => b.opportunity_score ≤ a.opportunity_score) ∧
    (rankResults l).Perm l ∧
    ∀ s : ℚ, (rankResults l).filter (fun r => r.opportunity_score == s) =
      l.filter (fun r => r.opportunity_score == s) := by
  induction l with
  | nil => exact ⟨List.Pairwise.nil, List.Perm.refl _, fun s => rfl⟩
  | cons a tl ih =>
    refine ⟨pairwise_insertDesc ih.1, ?_, ?_⟩
    · exact (perm_insertDesc a (rankResults tl)).trans (ih.2.1.cons a)
    · intro s
      rw [rankResults, filter_insertDesc, List.filter_cons]
      by_cases ha : a.opportunity_score = s
      · simp [ha, ih.2.2 s]
      · simp [ha, ih.2.2 s]

/-! ### C10: chart data -/

/-- C10. When a product is selected and found, a non-empty history always
yields non-empty chart data: the date filter drops unparseable and
too-early points, and when it drops everything the last (up to 5) points of
the full history stand in.  The result is empty exactly in the degenerate
cases: no product selected, no results, or an empty history. -/
theorem chartData_spec (k : String) (results : List AnalysisResult)
    (parseDate : String → Option ℤ) (cutoff : ℤ) (r : AnalysisResult)
    (hfind : results.find? (fun x => x.keyword == k) = some r) :
    (results ≠ [] → r.history ≠ [] →
      chartData (some k) results parseDate cutoff ≠ []) ∧
    (r.history = [] → chartData (some k) results parseDate cutoff = []) ∧
    chartData none results parseDate cutoff = [] ∧
    (results ≠ [] → r.history.filter (dateFilter parseDate cutoff) ≠ [] →
      chartData (some k) results parseDate cutoff =
        r.history.filter (dateFilter parseDate cutoff)) ∧
    (results ≠ [] → r.history ≠ [] →
      r.history.filter (dateFilter parseDate cutoff) = [] →
      chartData (some k) results parseDate cutoff =
        r.history.drop (r.history.length - 5)) := by
  have hne : ∀ {α : Type} (m : List α), m ≠ [] → m.isEmpty = false := by
    intro α m hm
    cases m with
    | nil => exact absurd rfl hm
    | cons a t => rfl
  refine ⟨?_, ?_, rfl, ?_, ?_⟩
  · intro hres hhist
    rw [chartData, hfind]
    simp only [hne results hres, Bool.false_eq_true, if_false, hne r.history hhist]
    by_cases hf : r.history.filter (dateFilter parseDate cutoff) = []
    · simp only [hf, List.isEmpty_nil, if_true]
      rw [Ne, List.drop_eq_nil_iff]
      have hpos : 0 < r.history.length := List.length_pos.mpr hhist
      omega
    · simp only [hne _ hf, Bool.false_eq_true, if_false]
      exact hf
  · intro hhist
    rw [chartData, hfind]
    by_cases hres : results.isEmpty
    · simp [hres]
    · simp [hres, hhist]
  · intro hres hf
    rw [chartData, hfind]
    have hhist : r.history ≠ [] := by
      intro h0
      rw [h0] at hf
      exact hf rfl
    simp only [hne results hres, Bool.false_eq_true, if_false, hne r.history hhist,
      hne _ hf]
  · intro hres hhist hf
    rw [chartData, hfind]
    simp only [hne results hres, Bool.false_eq_true, if_false, hne r.history hhist,
      hf, List.isEmpty_nil, if_true]

/-- C10 witness: a selected product with one unparseable-date point still
shows the fallback (last points) rather than an empty chart. -/
theorem chartData_spec_witness :
    ([⟨"a", 0, 0, 5, 0, 0, "", [⟨"not a date", 30⟩]⟩] :
        List AnalysisResult).find? (fun x => x.keyword == "a")
      = some ⟨"a", 0, 0, 5, 0, 0, "", [⟨"not a date", 30⟩]⟩ ∧
    ([⟨"a", 0, 0, 5, 0, 0, "", [⟨"not a date", 30⟩]⟩] : List AnalysisResult) ≠ [] ∧
    (⟨"a", 0, 0, 5, 0, 0, "", [⟨"not a date", 30⟩]⟩ : AnalysisResult).history ≠ [] ∧
    chartData (some "a") [⟨"a", 0, 0, 5, 0, 0, "", [⟨"not a date", 30⟩]⟩]
      (fun _ => none) 0 ≠ [] :=
  ⟨by decide, by decide, by decide,
   (chartData_spec "a" [⟨"a", 0, 0, 5, 0, 0, "", [⟨"not a date", 30⟩]⟩]
      (fun _ => none) 0 ⟨"a", 0, 0, 5, 0, 0, "", [⟨"not a date", 30⟩]⟩
      (by decide)).1 (by decide) (by decide)⟩

/-! ### C8: empty keyword list -/

/-- C8. Running with an empty keyword list yields an empty batch and no
error: the spec-modelled engine returns the empty batch, and the frontend
`fetchAnalysis` guard returns without firing a request, leaving the initial
(empty) results in place.  Both embeddings are total functions, so no error
is raised. -/
theorem emptyKeywords_emptyBatch (demand : String → Option (List ℚ))
    (supplies : List (String → Option ℕ)) (cfg : ScoringConfig)
    (backend : List String → Except String (List AnalysisResult)) :
    runEngine [] demand supplies cfg = [] ∧ fetchAnalysis [] backend [] = [] :=
  ⟨rfl, rfl⟩

/-! ### C7: one result per keyword, also under source failures -/

/-- C7. The engine produces exactly one result per input keyword, for every
behaviour of the demand source and the supply sources — including permanent
failures (`none`): a failed demand source routes through the empty-series
`insufficientData` path and a failed supply source is merely excluded from
the total, so no keyword is ever dropped.  Each result's score is the
(always-defined) scorer output. -/
theorem runEngine_one_per_keyword (keywords : List String)
    (demand : String → Option (List ℚ)) (supplies : List (String → Option ℕ))
    (cfg : ScoringConfig) :
    (runEngine keywords demand supplies cfg).map (fun r => r.keyword) = keywords ∧
    (keywords.Nodup → ∀ k ∈ keywords,
      ((runEngine keywords demand supplies cfg).filter
        (fun r => r.keyword == k)).length = 1) := by
  constructor
  · rw [runEngine, List.map_map]
    exact List.map_id keywords
  · intro hnd k hk
    rw [runEngine, List.filter_map, List.length_map]
    have hpred : ((fun r : RunResult => r.keyword == k) ∘ fun kw : String =>
        (⟨kw, computeStats ((demand kw).getD []),
          (supplies.filterMap fun src => src kw).sum,
          (score cfg (computeStats ((demand kw).getD []))
            (((supplies.filterMap fun src => src kw).sum : ℕ) : ℝ)).1,
          (score cfg (computeStats ((demand kw).getD []))
            (((supplies.filterMap fun src => src kw).sum : ℕ) : ℝ)).2⟩ : RunResult))
        = fun kw : String => kw == k := rfl
    rw [hpred, ← List.countP_eq_length_filter]
    have : keywords.count k = 1 := List.count_eq_one_of_mem hnd hk
    rw [← this]
    rfl

/-- C7 witness: two keywords, the demand source failing permanently and one
of three supply sources failing permanently — still exactly one result per
keyword. -/
theorem runEngine_one_per_keyword_witness :
    (["plush", "toy"] : List String).Nodup ∧
    ((runEngine ["plush", "toy"] (fun _ => none)
        [fun _ => none, fun _ => some 5, fun _ => some 7] ⟨10000, 50⟩).filter
      (fun r => r.keyword == "plush")).length = 1 ∧
    ((runEngine ["plush", "toy"] (fun _ => none)
        [fun _ => none, fun _ => some 5, fun _ => some 7] ⟨10000, 50⟩).filter
      (fun r => r.keyword == "toy")).length = 1 :=
  ⟨by decide,
   (runEngine_one_per_keyword ["plush", "toy"] (fun _ => none)
      [fun _ => none, fun _ => some 5, fun _ => some 7] ⟨10000, 50⟩).2
     (by decide) "plush" (by decide),
   (runEngine_one_per_keyword ["plush", "toy"] (fun _ => none)
      [fun _ => none, fun _ => some 5, fun _ => some 7] ⟨10000, 50⟩).2
     (by decide) "toy" (by decide)⟩

/-! ### C5: momentum -/

/-- The momentum is never negative, whatever the series. -/
theorem momentum_nonneg (ts : List ℚ) : 0 ≤ momentum ts := by
  rw [momentum]
  split_ifs with h1 h2
  · exact le_refl 0
  · exact le_refl 0
  · exact le_max_left 0 _

/-- C5. For every interest series the momentum is well defined and never
negative: each 25% window holds at least one point, a zero early average
defines the momentum as `0` instead of dividing by zero, and otherwise the
momentum is exactly `max 0 ((recentAvg - earlyAvg) / earlyAvg)`. -/
theorem momentum_props (ts : List ℚ) :
    0 ≤ momentum ts ∧
    1 ≤ windowLen ts ∧
    (earlyAvg ts = 0 → momentum ts = 0) ∧
    (ts ≠ [] → earlyAvg ts ≠ 0 →
      momentum ts = max 0 ((recentAvg ts - earlyAvg ts) / earlyAvg ts)) := by
  refine ⟨momentum_nonneg ts, le_max_left 1 _, ?_, ?_⟩
  · intro hz
    rw [momentum]
    split_ifs <;> rfl
  · intro hne hz
    rw [momentum, if_neg hne, if_neg hz]

/-- C5 witness: a series whose early window averages zero gets momentum 0,
and a growing series gets exactly the floored relative growth. -/
theorem momentum_props_witness :
    (earlyAvg [(0 : ℚ), 50, 100, 100] = 0 ∧ momentum [(0 : ℚ), 50, 100, 100] = 0) ∧
    (([(4 : ℚ), 8] : List ℚ) ≠ [] ∧ earlyAvg [(4 : ℚ), 8] ≠ 0 ∧
      momentum [(4 : ℚ), 8] =
        max 0 ((recentAvg [(4 : ℚ), 8] - earlyAvg [(4 : ℚ), 8]) / earlyAvg [(4 : ℚ), 8])) :=
  ⟨⟨by norm_num [earlyAvg, avg, windowLen],
    (momentum_props [(0 : ℚ), 50, 100, 100]).2.2.1
      (by norm_num [earlyAvg, avg, windowLen])⟩,
   ⟨by decide, by norm_num [earlyAvg, avg, windowLen],
    (momentum_props [(4 : ℚ), 8]).2.2.2 (by decide)
      (by norm_num [earlyAvg, avg, windowLen])⟩⟩

/-! ### C6: empty series and totality of the statistics -/

/-- C6. The empty series is flagged `insufficientData` with mean interest 0;
scoring such statistics forces a zero final score and the
"insufficient data" verdict.  The statistics are a total function: for every
series of in-range values they return a well-formed `DemandStats` with mean
interest in `[0, 100]` and non-negative momentum. -/
theorem computeStats_spec (cfg : ScoringConfig) (S : ℝ) (ts : List ℚ)
    (h : ∀ v ∈ ts, 0 ≤ v ∧ v ≤ 100) :
    (computeStats []).insufficientData = true ∧
    (computeStats []).meanInterest = 0 ∧
    (score cfg (computeStats []) S).1 = 0 ∧
    (score cfg (computeStats []) S).2 = "insufficient data" ∧
    0 ≤ (computeStats ts).meanInterest ∧
    (computeStats ts).meanInterest ≤ 100 ∧
    0 ≤ (computeStats ts).momentum := by
  refine ⟨rfl, rfl, rfl, rfl, ?_, ?_, momentum_nonneg ts⟩
  · show 0 ≤ meanInterest ts
    rw [meanInterest]
    split_ifs with h1
    · exact le_refl 0
    · exact div_nonneg (List.sum_nonneg fun v hv => (h v hv).1) (Nat.cast_nonneg _)
  · show meanInterest ts ≤ 100
    rw [meanInterest]
    split_ifs with h1
    · norm_num
    · have hpos : (0 : ℚ) < ts.length := by
        have := List.length_pos.mpr h1
        exact_mod_cast this
      rw [div_le_iff₀ hpos]
      have hsum := List.sum_le_card_nsmul ts 100 fun v hv => (h v hv).2
      rw [nsmul_eq_mul] at hsum
      calc ts.sum ≤ (ts.length : ℚ) * 100 := hsum
        _ = 100 * (ts.length : ℚ) := mul_comm _ _

/-- C6 witness: a concrete in-range series. -/
theorem computeStats_spec_witness :
    (∀ v ∈ [(0 : ℚ), 64, 100], 0 ≤ v ∧ v ≤ 100) ∧
    ((computeStats []).insufficientData = true ∧
     (computeStats []).meanInterest = 0 ∧
     (score ⟨10000, 50⟩ (computeStats []) 57).1 = 0 ∧
     (score ⟨10000, 50⟩ (computeStats []) 57).2 = "insufficient data" ∧
     0 ≤ (computeStats [(0 : ℚ), 64, 100]).meanInterest ∧
     (computeStats [(0 : ℚ), 64, 100]).meanInterest ≤ 100 ∧
     0 ≤ (computeStats [(0 : ℚ), 64, 100]).momentum) :=
  ⟨by decide, computeStats_spec ⟨10000, 50⟩ 57 [(0 : ℚ), 64, 100] (by decide)⟩

/-! ### C1: the score is bounded and the supply pressure bounded away
from zero -/

/-- For a non-negative total supply the supply pressure is at least
`log10 10 = 1`, so the scorer's division is never by zero. -/
theorem supplyPressure_ge_one {S : ℝ} (hS : 0 ≤ S) : 1 ≤ supplyPressure S := by
  rw [supplyPressure]
  rw [show (1 : ℝ) = Real.logb 10 10 from (Real.logb_self_eq_one (by norm_num)).symm]
  exact (Real.logb_le_logb (by norm_num) (by norm_num) (by linarith)).mpr (by linarith)

/-- C1. For every valid demand statistics (mean interest in `[0, 100]`,
non-negative momentum) and every non-negative total supply — including zero
supply and zero mean interest — the score lies in its declared closed range
`[0, 100]`, and the supply pressure is at least `log10 10 = 1 > 0`, so the
division never produces an unbounded value.  (The embedding is over `ℝ`,
where the supply-pressure lower bound is exactly the fact that rules out a
division by zero, i.e. a NaN or infinite result.) -/
theorem score_bounded (cfg : ScoringConfig) (st : DemandStats) (S : ℝ)
    (hmi0 : 0 ≤ st.meanInterest) (hmi1 : st.meanInterest ≤ 100)
    (hmom : 0 ≤ st.momentum) (hS : 0 ≤ S) :
    0 ≤ (score cfg st S).1 ∧ (score cfg st S).1 ≤ 100 ∧
    0 < supplyPressure S ∧ 1 ≤ supplyPressure S := by
  have hsp := supplyPressure_ge_one hS
  refine ⟨?_, ?_, by linarith, hsp⟩
  · rw [score]
    split_ifs
    · norm_num
    · exact le_max_left 0 _
  · rw [score]
    split_ifs
    · norm_num
    · exact max_le (by norm_num) (min_le_left _ _)

/-- C1 witness: a concrete valid input. -/
theorem score_bounded_witness :
    ((0 : ℚ) ≤ 64 ∧ (64 : ℚ) ≤ 100 ∧ (0 : ℚ) ≤ 1 ∧ (0 : ℝ) ≤ 57) ∧
    (0 ≤ (score ⟨10000, 50⟩ ⟨64, 1, false⟩ 57).1 ∧
     (score ⟨10000, 50⟩ ⟨64, 1, false⟩ 57).1 ≤ 100 ∧
     0 < supplyPressure 57 ∧ 1 ≤ supplyPressure 57) :=
  ⟨⟨by decide, by decide, by decide, by norm_num⟩,
   score_bounded ⟨10000, 50⟩ ⟨64, 1, false⟩ 57
     (by decide) (by decide) (by decide) (by norm_num)⟩

/-! ### C2: monotonicity of the score -/

/-- The saturation penalty never decreases as supply grows. -/
theorem saturationPenalty_mono {S₁ S₂ : ℝ} (h : S₁ ≤ S₂) :
    saturationPenalty S₁ ≤ saturationPenalty S₂ := by
  rw [saturationPenalty, saturationPenalty]
  split_ifs <;> linarith

/-- C2. Holding momentum and supply fixed, a larger mean interest never
yields a smaller score; holding the demand statistics fixed, a larger
non-negative total supply never yields a larger score (the log10 supply
pressure and the saturation penalty move the score the same way). -/
theorem score_monotone (cfg : ScoringConfig) (hB : 0 ≤ cfg.baseline)
    (hN : 0 < cfg.normalizer) :
    (∀ (mi₁ mi₂ mom : ℚ) (fl : Bool) (S : ℝ), 0 ≤ S → 0 ≤ mom → mi₁ ≤ mi₂ →
      (score cfg ⟨mi₁, mom, fl⟩ S).1 ≤ (score cfg ⟨mi₂, mom, fl⟩ S).1) ∧
    (∀ (mi mom : ℚ) (fl : Bool) (S₁ S₂ : ℝ), 0 ≤ mi → 0 ≤ mom →
      0 ≤ S₁ → S₁ ≤ S₂ →
      (score cfg ⟨mi, mom, fl⟩ S₂).1 ≤ (score cfg ⟨mi, mom, fl⟩ S₁).1) := by
  constructor
  · intro mi₁ mi₂ mom fl S hS hmom hmi
    cases fl with
    | true => exact le_refl 0
    | false =>
      have e1 : (score cfg ⟨mi₁, mom, false⟩ S).1
          = finalScore cfg (mi₁ : ℝ) (mom : ℝ) S := rfl
      have e2 : (score cfg ⟨mi₂, mom, false⟩ S).1
          = finalScore cfg (mi₂ : ℝ) (mom : ℝ) S := rfl
      have hsp : 1 ≤ supplyPressure S := supplyPressure_ge_one hS
      have hsp0 : 0 < supplyPressure S := by linarith
      have hmi' : (mi₁ : ℝ) ≤ (mi₂ : ℝ) := by exact_mod_cast hmi
      have hmom' : (0 : ℝ) ≤ (mom : ℝ) := by exact_mod_cast hmom
      have hv : viability cfg (mi₁ : ℝ) (mom : ℝ) ≤ viability cfg (mi₂ : ℝ) (mom : ℝ) := by
        rw [viability, viability, monthlySearches, monthlySearches]
        have h1 : (mi₁ : ℝ) / 100 * cfg.baseline ≤ (mi₂ : ℝ) / 100 * cfg.baseline :=
          mul_le_mul_of_nonneg_right (by linarith) hB
        exact mul_le_mul_of_nonneg_right h1 (by linarith)
      have hbs : baseScore cfg (mi₁ : ℝ) (mom : ℝ) S
          ≤ baseScore cfg (mi₂ : ℝ) (mom : ℝ) S := by
        rw [baseScore, baseScore]
        exact (div_le_div_iff_of_pos_right hsp0).mpr hv
      rw [e1, e2, finalScore, finalScore, clamp, clamp]
      apply max_le_max (le_refl _)
      apply min_le_min (le_refl _)
      exact sub_le_sub_right ((div_le_div_iff_of_pos_right hN).mpr hbs) _
  · intro mi mom fl S₁ S₂ hmi hmom hS1 hS12
    cases fl with
    | true => exact le_refl 0
    | false =>
      have e1 : (score cfg ⟨mi, mom, false⟩ S₁).1
          = finalScore cfg (mi : ℝ) (mom : ℝ) S₁ := rfl
      have e2 : (score cfg ⟨mi, mom, false⟩ S₂).1
          = finalScore cfg (mi : ℝ) (mom : ℝ) S₂ := rfl
      have hsp1 : 1 ≤ supplyPressure S₁ := supplyPressure_ge_one hS1
      have hsp1' : 0 < supplyPressure S₁ := by linarith
      have hsp12 : supplyPressure S₁ ≤ supplyPressure S₂ := by
        rw [supplyPressure, supplyPressure]
        exact (Real.logb_le_logb (by norm_num) (by linarith) (by linarith)).mpr
          (by linarith)
      have hmi' : (0 : ℝ) ≤ (mi : ℝ) := by exact_mod_cast hmi
      have hmom' : (0 : ℝ) ≤ (mom : ℝ) := by exact_mod_cast hmom
      have hvnn : 0 ≤ viability cfg (mi : ℝ) (mom : ℝ) := by
        rw [viability, monthlySearches]
        exact mul_nonneg (mul_nonneg (div_nonneg hmi' (by norm_num)) hB) (by linarith)
      have hbs : baseScore cfg (mi : ℝ) (mom : ℝ) S₂
          ≤ baseScore cfg (mi : ℝ) (mom : ℝ) S₁ := by
        rw [baseScore, baseScore]
        exact div_le_div_of_nonneg_left hvnn hsp1' hsp12
      rw [e1, e2, finalScore, finalScore, clamp, clamp]
      apply max_le_max (le_refl _)
      apply min_le_min (le_refl _)
      exact sub_le_sub ((div_le_div_iff_of_pos_right hN).mpr hbs)
        (saturationPenalty_mono hS12)

/-- C2 witness: higher interest does not lower the score, higher supply
does not raise it, at a concrete configuration. -/
theorem score_monotone_witness :
    ((0 : ℝ) ≤ (⟨10000, 50⟩ : ScoringConfig).baseline ∧
     (0 : ℝ) < (⟨10000, 50⟩ : ScoringConfig).normalizer) ∧
    (score ⟨10000, 50⟩ ⟨30, 1, false⟩ 57).1 ≤ (score ⟨10000, 50⟩ ⟨64, 1, false⟩ 57).1 ∧
    (score ⟨10000, 50⟩ ⟨64, 1, false⟩ 5000).1 ≤ (score ⟨10000, 50⟩ ⟨64, 1, false⟩ 57).1 :=
  ⟨⟨by norm_num, by norm_num⟩,
   (score_monotone ⟨10000, 50⟩ (by norm_num) (by norm_num)).1 30 64 1 false 57
     (by norm_num) (by decide) (by decide),
   (score_monotone ⟨10000, 50⟩ (by norm_num) (by norm_num)).2 64 1 false 57 5000
     (by decide) (by decide) (by norm_num) (by norm_num)⟩

end TrendArbitrage
